import Mathlib

set_option maxRecDepth 100000

/-!
Verification of the Message Exchange Core of the landscape-client repository.

The repository snapshot provides `landscape/broker/amp.py` (the broker IPC
protocol), `landscape/broker/tests/test_exchange.py` (the exchange test
suite), and two auxiliary modules.  The implementation modules
`landscape/broker/exchange.py` and `landscape/broker/store.py` are not part
of the snapshot, so the exchange engine and the message store are modelled
from the specification, with every behavioural choice that the test suite
pins down (event ordering, commit points, sequence bookkeeping) taken from
the tests.
-/

/-- Outbound or inbound message: a mapping with a required `type` key, an
optional `api` key and type-specific payload fields.  Only the fields the
claims exercise are modelled (`data` for the `data` schema, `operation-id`
for `resynchronize` messages). -/
structure Message where
  type : String
  api : Option String := none
  data : Option Int := none
  operationId : Option Nat := none
deriving DecidableEq, Repr

/-- Modelled from the spec: persisted state of `MessageStore`
(`landscape/broker/store.py` is absent from the snapshot).  `pending` keeps
every retained outbound message, `pendingOffset` is the index of the first
message not yet acknowledged, `sequence` is the persisted sequence number of
that message, and `serverSequence` counts inbound messages handled so far. -/
structure StoreState where
  sequence : Nat := 0
  pendingOffset : Nat := 0
  serverSequence : Nat := 0
  acceptedTypes : List String := []
  pending : List Message := []
  held : List Message := []
deriving DecidableEq, Repr

/-- Truncation to 32 bits. -/
def u32 (x : Nat) : Nat := x % 4294967296

/-- Left rotation of a 32-bit word. -/
def rotl32 (x n : Nat) : Nat := ((x <<< n) ||| (x >>> (32 - n))) % 4294967296

/-- Modelled from the spec: the MD5 sine-derived round constants of the
`md5` library the exchange uses for the accepted-types digest. -/
def md5Sines : List Nat := [
  0xd76aa478, 0xe8c7b756, 0x242070db, 0xc1bdceee, 0xf57c0faf, 0x4787c62a, 0xa8304613, 0xfd469501,
  0x698098d8, 0x8b44f7af, 0xffff5bb1, 0x895cd7be, 0x6b901122, 0xfd987193, 0xa679438e, 0x49b40821,
  0xf61e2562, 0xc040b340, 0x265e5a51, 0xe9b6c7aa, 0xd62f105d, 0x02441453, 0xd8a1e681, 0xe7d3fbc8,
  0x21e1cde6, 0xc33707d6, 0xf4d50d87, 0x455a14ed, 0xa9e3e905, 0xfcefa3f8, 0x676f02d9, 0x8d2a4c8a,
  0xfffa3942, 0x8771f681, 0x6d9d6122, 0xfde5380c, 0xa4beea44, 0x4bdecfa9, 0xf6bb4b60, 0xbebfbc70,
  0x289b7ec6, 0xeaa127fa, 0xd4ef3085, 0x04881d05, 0xd9d4d039, 0xe6db99e5, 0x1fa27cf8, 0xc4ac5665,
  0xf4292244, 0x432aff97, 0xab9423a7, 0xfc93a039, 0x655b59c3, 0x8f0ccc92, 0xffeff47d, 0x85845dd1,
  0x6fa87e4f, 0xfe2ce6e0, 0xa3014314, 0x4e0811a1, 0xf7537e82, 0xbd3af235, 0x2ad7d2bb, 0xeb86d391]

/-- Per-round left-rotation amounts of MD5. -/
def md5Shifts : List Nat := [
  7, 12, 17, 22, 7, 12, 17, 22, 7, 12, 17, 22, 7, 12, 17, 22,
  5, 9, 14, 20, 5, 9, 14, 20, 5, 9, 14, 20, 5, 9, 14, 20,
  4, 11, 16, 23, 4, 11, 16, 23, 4, 11, 16, 23, 4, 11, 16, 23,
  6, 10, 15, 21, 6, 10, 15, 21, 6, 10, 15, 21, 6, 10, 15, 21]

/-- Round function of MD5, selected by the round index. -/
def md5F (i b c d : Nat) : Nat :=
  if i < 16 then (b &&& c) ||| ((b ^^^ 0xffffffff) &&& d)
  else if i < 32 then (d &&& b) ||| ((d ^^^ 0xffffffff) &&& c)
  else if i < 48 then b ^^^ c ^^^ d
  else c ^^^ (b ||| (d ^^^ 0xffffffff))

/-- Message-word index used by MD5 round `i`. -/
def md5G (i : Nat) : Nat :=
  if i < 16 then i
  else if i < 32 then (5 * i + 1) % 16
  else if i < 48 then (3 * i + 5) % 16
  else (7 * i) % 16

/-- Byte of a buffer at an index, zero past the end. -/
def byteAt (l : List Nat) (i : Nat) : Nat := l.getD i 0

/-- Little-endian 32-bit word `i` of a 64-byte block. -/
def wordAt (l : List Nat) (i : Nat) : Nat :=
  byteAt l (4 * i) + 256 * byteAt l (4 * i + 1) +
    65536 * byteAt l (4 * i + 2) + 16777216 * byteAt l (4 * i + 3)

/-- One MD5 round applied to the running `(a, b, c, d)` state. -/
def md5Round (block : List Nat) (st : Nat × Nat × Nat × Nat) (i : Nat) :
    Nat × Nat × Nat × Nat :=
  let (a, b, c, d) := st
  let f := u32 (md5F i b c d + a + md5Sines.getD i 0 + wordAt block (md5G i))
  (d, u32 (b + rotl32 f (md5Shifts.getD i 0)), b, c)

/-- All 64 MD5 rounds of one block, folded into the chaining state. -/
def md5Block (st : Nat × Nat × Nat × Nat) (block : List Nat) :
    Nat × Nat × Nat × Nat :=
  let r := (List.range 64).foldl (md5Round block) st
  (u32 (st.1 + r.1), u32 (st.2.1 + r.2.1), u32 (st.2.2.1 + r.2.2.1),
    u32 (st.2.2.2 + r.2.2.2))

/-- Little-endian bytes of a 64-bit length field. -/
def le64 (n : Nat) : List Nat :=
  (List.range 8).map fun i => (n >>> (8 * i)) % 256

/-- Little-endian bytes of a 32-bit word. -/
def le32 (n : Nat) : List Nat :=
  [n % 256, (n >>> 8) % 256, (n >>> 16) % 256, (n >>> 24) % 256]

/-- MD5 padding: a 0x80 byte, zeros to 56 mod 64, then the bit length. -/
def md5Pad (msg : List Nat) : List Nat :=
  msg ++ [0x80] ++ List.replicate ((119 - msg.length % 64) % 64) 0 ++
    le64 (8 * msg.length)

/-- MD5 digest (16 raw bytes) of a byte string. -/
def md5Bytes (msg : List Nat) : List Nat :=
  let padded := md5Pad msg
  let blocks := (List.range (padded.length / 64)).map
    fun i => (padded.drop (64 * i)).take 64
  let r := blocks.foldl md5Block (0x67452301, 0xefcdab89, 0x98badcfe, 0x10325476)
  le32 r.1 ++ le32 r.2.1 ++ le32 r.2.2.1 ++ le32 r.2.2.2

/-- MD5 digest of the bytes of an ASCII string, as `md5.new(s).digest()`
computes it on the Python 2 byte strings the client uses. -/
def md5String (s : String) : List Nat := md5Bytes (s.data.map Char.toNat)

/-- Character codes of a string, the representation Python 2 compares byte
strings by. -/
def charsOf (s : String) : List Nat := s.data.map Char.toNat

/-- Strict lexicographic comparison of code sequences, as Python 2 compares
byte strings. -/
def lexLt : List Nat → List Nat → Bool
  | [], [] => false
  | [], _ :: _ => true
  | _ :: _, [] => false
  | x :: xs, y :: ys =>
    if x < y then true else if y < x then false else lexLt xs ys

/-- Strict string comparison. -/
def strLt (a b : String) : Bool := lexLt (charsOf a) (charsOf b)

/-- Non-strict string comparison, as Python 2 `a <= b` on byte strings. -/
def strLe (a b : String) : Bool := !(strLt b a)

/-- The ordering proposition behind `strLe`. -/
def strLeP (a b : String) : Prop := strLe a b = true

instance : DecidableRel strLeP :=
  fun a b => inferInstanceAs (Decidable (strLe a b = true))

/-- Alphabetical sorting of type names, as `sorted` on Python 2 byte
strings. -/
def sortStrs (l : List String) : List String :=
  l.insertionSort strLeP

/-- The smaller of two strings, as Python 2 `min`. -/
def minStr (a b : String) : String := if strLt b a then b else a

/-- Semicolon join, as `";".join` on Python strings. -/
def joinSemicolon : List String → String
  | [] => ""
  | [x] => x
  | x :: y :: xs => x ++ ";" ++ joinSemicolon (y :: xs)

/-- Modelled from the spec: `MessageStore.get_accepted_types_digest`, the raw
MD5 digest of the semicolon-join of the sorted accepted types
(`landscape/broker/store.py` is absent from the snapshot). -/
def get_accepted_types_digest (types : List String) : List Nat :=
  md5String (joinSemicolon (sortStrs types))

/-- Modelled from the spec: `MessageStore.add` — a message whose type is
accepted is appended to the pending queue, any other message is appended to
the held queue. -/
def store_add (st : StoreState) (m : Message) : StoreState :=
  if m.type ∈ st.acceptedTypes then
    { st with pending := st.pending ++ [m] }
  else
    { st with held := st.held ++ [m] }

/-- Modelled from the spec: `MessageStore.get_pending_messages` — the
messages from the pending offset on, optionally capped. -/
def get_pending_messages (st : StoreState) (max : Option Nat) : List Message :=
  match max with
  | none => st.pending.drop st.pendingOffset
  | some n => (st.pending.drop st.pendingOffset).take n

/-- Modelled from the spec: the `"message-type-acceptance-changed"` events
emitted when the accepted set changes from `old` to `new`, in the order the
exchange test suite pins down: types no longer accepted first (alphabetical,
with `False`), then newly accepted types (alphabetical, with `True`). -/
def acceptance_events (old new : List String) : List (String × Bool) :=
  (sortStrs (old.filter (fun t => t ∉ new))).map (fun t => (t, false)) ++
    (sortStrs (new.filter (fun t => t ∉ old))).map (fun t => (t, true))

/-- Modelled from the spec: the client API version constant stamped on
payloads; its concrete value is not pinned by any claim. -/
def clientAPIVersion : String := "3.2"

/-- Modelled from the spec: configuration of `MessageExchange`, with the
documented defaults. -/
structure ExchConfig where
  exchangeInterval : Nat := 900
  urgentExchangeInterval : Nat := 60
  maxMessages : Nat := 100
  preExchangeLeadTime : Nat := 10
deriving DecidableEq, Repr

/-- Operation `get_exchange_intervals` of the exchanger: the pair of the
urgent interval and the regular interval. -/
def get_exchange_intervals (cfg : ExchConfig) : Nat × Nat :=
  (cfg.urgentExchangeInterval, cfg.exchangeInterval)

/-- The api bucket of a message: its `api` field, with an absent field
bucketed into `"2.0"` for legacy compatibility. -/
def apiOf (m : Message) : String := m.api.getD "2.0"

/-- Lowest api version present in a batch, or the default for an empty
batch. -/
def lowestApi (batch : List Message) (dflt : String) : String :=
  match batch.map apiOf with
  | [] => dflt
  | a :: rest => rest.foldl minStr a

/-- Outbound payload of one exchange, with the fields the claims exercise. -/
structure Payload where
  serverApi : String
  clientApi : String
  sequence : Nat
  nextExpectedSequence : Nat
  acceptedTypesDigest : List Nat
  messages : List Message
  totalMessages : Nat
deriving DecidableEq, Repr

/-- Modelled from the spec: `MessageExchange.make_payload` — take the batch
of at most `max_messages` pending messages, pick the lowest api version in
it, and send exactly the messages of that bucket, with the batch's api as
the payload's `server-api`. -/
def make_payload (cfg : ExchConfig) (st : StoreState) : Payload :=
  let pendingAll := st.pending.drop st.pendingOffset
  let batch := pendingAll.take cfg.maxMessages
  let serverApi := lowestApi batch clientAPIVersion
  { serverApi := serverApi,
    clientApi := clientAPIVersion,
    sequence := st.sequence,
    nextExpectedSequence := st.serverSequence,
    acceptedTypesDigest := get_accepted_types_digest st.acceptedTypes,
    messages := batch.filter (fun m => apiOf m == serverApi),
    totalMessages := pendingAll.length }

/-- Inbound response of one exchange: the server's next expected sequence
and its batch of inbound messages. -/
structure Response where
  nextExpected : Nat
  messages : List Message := []
deriving DecidableEq, Repr

/-- Result of comparing the server's next expected sequence with what we
sent: the updated store, the number of `"resynchronize-clients"` events
fired, and whether urgent mode was triggered. -/
structure NEResult where
  store : StoreState
  resyncFires : Nat
  urgent : Bool
deriving DecidableEq, Repr

/-- Modelled from the spec: the next-expected-sequence handling of one
exchange response.  If the server expects a sequence older than anything we
retain (ancient), a `{"type": "resynchronize"}` message is enqueued, then
`"resynchronize-clients"` is fired — `subs` are the messages its
subscribers enqueue in response — and urgent mode is set.  If the server
expects an older sequence we still retain, the pending offset is rewound and
urgent mode is set.  Otherwise the acknowledged messages are consumed by
advancing the offset and sequence, and urgent mode is left unset. -/
def apply_next_expected (st : StoreState) (sentSeq nextExpected : Nat)
    (subs : List Message) : NEResult :=
  if nextExpected < sentSeq then
    if nextExpected < st.sequence then
      let st1 := store_add st { type := "resynchronize" }
      let st2 := subs.foldl store_add st1
      { store := st2, resyncFires := 1, urgent := true }
    else
      { store := { st with pendingOffset := 0, sequence := nextExpected },
        resyncFires := 0, urgent := true }
  else
    let diff := nextExpected - sentSeq
    { store := { st with pendingOffset := st.pendingOffset + diff,
                         sequence := st.sequence + diff },
      resyncFires := 0, urgent := false }

/-- Modelled from the spec and pinned by the test suite: dispatch of the
inbound messages of a response.  Each list entry pairs the committed store
state visible to that message's handler with the message itself; the server
sequence is incremented and committed after each handler runs, so the
handler of message `k` (counting from zero) sees `k` increments.  The final
committed store is returned alongside. -/
def dispatch_inbound (st : StoreState) :
    List Message → List (StoreState × Message) × StoreState
  | [] => ([], st)
  | m :: ms =>
    let st1 := { st with serverSequence := st.serverSequence + 1 }
    let r := dispatch_inbound st1 ms
    ((st, m) :: r.1, r.2)

/-- Modelled from the spec: handling of one exchange response — the
next-expected-sequence bookkeeping is applied and committed first, then the
inbound messages are dispatched. -/
def handle_response (st : StoreState) (sentSeq : Nat) (resp : Response) :
    NEResult × List (StoreState × Message) × StoreState :=
  let r := apply_next_expected st sentSeq resp.nextExpected []
  let d := dispatch_inbound r.store resp.messages
  (r, d.1, d.2)

/-- Result of one full exchange cycle: the final store, the payload that was
sent, whether urgent mode is set after the cycle, and the interval at which
the next exchange was scheduled. -/
structure CycleResult where
  store : StoreState
  payload : Payload
  urgent : Bool
  interval : Nat
deriving DecidableEq, Repr

/-- Modelled from the spec: one synchronous exchange cycle.  Entering the
cycle clears the urgent flag; a transport failure retains the previous flag;
a response is handled by `handle_response`, and the next exchange is
scheduled at the urgent interval exactly when the cycle re-set urgent
mode. -/
def exchange_cycle (cfg : ExchConfig) (st : StoreState) (urgentIn : Bool)
    (respond : Payload → Option Response) : CycleResult :=
  let payload := make_payload cfg st
  match respond payload with
  | none =>
    { store := st, payload := payload, urgent := urgentIn,
      interval := if urgentIn then cfg.urgentExchangeInterval
                  else cfg.exchangeInterval }
  | some resp =>
    let h := handle_response st payload.sequence resp
    { store := h.2.2, payload := payload, urgent := h.1.urgent,
      interval := if h.1.urgent then cfg.urgentExchangeInterval
                  else cfg.exchangeInterval }

/-- A well-behaved server for driving concrete scenarios: it acknowledges
every message in the payload and sends no inbound messages. -/
def cooperative_respond (payload : Payload) : Option Response :=
  some { nextExpected := payload.sequence + payload.messages.length }

/-- Timer state of the exchange scheduler: the absolute fire time of the
exchange timer, whether it was scheduled urgently, and the absolute fire
time of the impending-exchange timer. -/
structure SchedTimers where
  exchangeAt : Option Nat := none
  urgentScheduled : Bool := false
  impendingAt : Option Nat := none
deriving DecidableEq, Repr

/-- Modelled from the spec: setting the exchange timer `t` seconds from
`now` also sets the impending timer `pre_exchange_lead_time` seconds before
it, guarded by `t` exceeding the lead time. -/
def mk_timers (cfg : ExchConfig) (now t : Nat) (urgent : Bool) : SchedTimers :=
  { exchangeAt := some (now + t),
    urgentScheduled := urgent,
    impendingAt := if cfg.preExchangeLeadTime < t then
        some (now + t - cfg.preExchangeLeadTime)
      else none }

/-- Modelled from the spec: `MessageExchange.schedule_exchange`.  An urgent
request over a non-urgent pending timer cancels both timers and reschedules
at the urgent interval; any other request over a pending timer leaves it
unchanged; with no pending timer, a timer is set at the requested
interval. -/
def schedule_exchange (cfg : ExchConfig) (now : Nat) (tm : SchedTimers)
    (urgent : Bool) : SchedTimers :=
  match tm.exchangeAt with
  | some _ =>
    if urgent && !tm.urgentScheduled then
      mk_timers cfg now cfg.urgentExchangeInterval true
    else tm
  | none =>
    mk_timers cfg now
      (if urgent then cfg.urgentExchangeInterval else cfg.exchangeInterval)
      urgent

/-- Discrete-event state for driving the scheduler: the clock, urgent mode,
the timers, the store, the payloads delivered so far and the times at which
`"impending-exchange"` fired. -/
structure SimState where
  cfg : ExchConfig := {}
  now : Nat := 0
  urgentMode : Bool := false
  timers : SchedTimers := {}
  store : StoreState := {}
  payloads : List Payload := []
  impendingFired : List Nat := []
deriving DecidableEq, Repr

/-- Modelled from the spec: `MessageExchange.send` — hand the message to the
store and, when urgent, set urgent mode and schedule an urgent exchange. -/
def sim_send (s : SimState) (m : Message) (urgent : Bool) : SimState :=
  let s := { s with store := store_add s.store m }
  if urgent then
    { s with urgentMode := true,
             timers := schedule_exchange s.cfg s.now s.timers true }
  else s

/-- Schedule an exchange on the simulated exchanger. -/
def sim_schedule (s : SimState) (urgent : Bool) : SimState :=
  { s with timers := schedule_exchange s.cfg s.now s.timers urgent }

/-- Fire the impending timer: record the event and clear the timer. -/
def fire_impending (s : SimState) : SimState :=
  { s with timers := { s.timers with impendingAt := none },
           impendingFired := s.impendingFired ++ [s.now] }

/-- Fire the exchange timer: run one exchange cycle against the cooperative
server, record the payload, and reschedule per the resulting urgent flag. -/
def fire_exchange (s : SimState) : SimState :=
  let r := exchange_cycle s.cfg s.store s.urgentMode cooperative_respond
  { s with store := r.store,
           payloads := s.payloads ++ [r.payload],
           urgentMode := r.urgent,
           timers := schedule_exchange s.cfg s.now {} r.urgent }

/-- Fire the earliest timer due by `deadline`, if any, advancing the clock
to its fire time. -/
def sim_step (s : SimState) (deadline : Nat) : Option SimState :=
  match s.timers.impendingAt, s.timers.exchangeAt with
  | some ti, some te =>
    if ti ≤ deadline && ti ≤ te then some (fire_impending { s with now := ti })
    else if te ≤ deadline then some (fire_exchange { s with now := te })
    else none
  | some ti, none =>
    if ti ≤ deadline then some (fire_impending { s with now := ti }) else none
  | none, some te =>
    if te ≤ deadline then some (fire_exchange { s with now := te }) else none
  | none, none => none

/-- Advance the simulated clock by `dt` seconds, firing due timers in time
order; the fuel bounds the number of firings and is ample for every
scenario proved below. -/
def sim_advance_fuel : Nat → SimState → Nat → SimState
  | 0, s, dt => { s with now := s.now + dt }
  | Nat.succ fuel, s, dt =>
    let deadline := s.now + dt
    match sim_step s deadline with
    | some s1 => sim_advance_fuel fuel s1 (deadline - s1.now)
    | none => { s with now := deadline }

/-- Advance the simulated clock by `dt` seconds. -/
def sim_advance (s : SimState) (dt : Nat) : SimState := sim_advance_fuel 8 s dt

/-- Modelled from the spec: handling of an inbound `"set-intervals"`
message — each interval is updated exactly when its field is present. -/
def handle_set_intervals (cfg : ExchConfig) (urgentField exchangeField : Option Nat) :
    ExchConfig :=
  let cfg1 := match exchangeField with
    | some v => { cfg with exchangeInterval := v }
    | none => cfg
  match urgentField with
  | some v => { cfg1 with urgentExchangeInterval := v }
  | none => cfg1

/-- The broker method names dispatched by `BrokerServerProtocol`, from
`landscape/broker/amp.py`. -/
def broker_method_calls : List String :=
  ["ping",
   "register_client",
   "send_message",
   "is_message_pending",
   "stop_clients",
   "reload_configuration",
   "register",
   "get_accepted_message_types",
   "get_server_uuid",
   "register_client_accepted_message_type",
   "exit"]

/-- The method lookup of `BrokerServerProtocol._get_broker_method`: a name
in the dispatch list resolves to the broker's attribute of that name, any
other name resolves to nothing. -/
def get_broker_method {α : Type} (broker : String → α) (name : String) :
    Option α :=
  if name ∈ broker_method_calls then some (broker name) else none

/-- The `empty`-schema message the exchange tests send. -/
def msgEmpty : Message := { type := "empty" }

/-- A `data`-schema message with the given payload value. -/
def msgData (n : Int) : Message := { type := "data", data := some n }

/-- Store of the ancient-desync scenario: three generations of `empty`
messages were exchanged (sequence 3), of which only the last is retained. -/
def ancientStore : StoreState :=
  { sequence := 3, pendingOffset := 1,
    acceptedTypes := ["empty", "data", "resynchronize"],
    pending := [msgEmpty] }

/-- Store of the no-ack-progress scenario: a non-zero server sequence and
one pending `data` message. -/
def noProgressStore : StoreState :=
  { serverSequence := 3300, acceptedTypes := ["data"],
    pending := [msgData 0] }

/-- Messages of the per-api partition scenario. -/
def msgA : Message := { type := "a", api := some "1.0" }

/-- Second message carrying api 1.0. -/
def msgB : Message := { type := "b", api := some "1.0" }

/-- First message carrying api 1.1. -/
def msgC : Message := { type := "c", api := some "1.1" }

/-- Second message carrying api 1.1. -/
def msgD : Message := { type := "d", api := some "1.1" }

/-- First message with the api field absent. -/
def msgE : Message := { type := "e" }

/-- Second message with the api field absent. -/
def msgF : Message := { type := "f" }

/-- Store of the per-api partition scenario, holding the six messages. -/
def perApiStore : StoreState :=
  { acceptedTypes := ["a", "b", "c", "d", "e", "f"],
    pending := [msgA, msgB, msgC, msgD, msgE, msgF] }

/-- First exchange of the per-api partition scenario. -/
def perApiCycle1 : CycleResult :=
  exchange_cycle {} perApiStore false cooperative_respond

/-- Second exchange of the per-api partition scenario. -/
def perApiCycle2 : CycleResult :=
  exchange_cycle {} perApiCycle1.store false cooperative_respond

/-- Third exchange of the per-api partition scenario. -/
def perApiCycle3 : CycleResult :=
  exchange_cycle {} perApiCycle2.store false cooperative_respond

/-- An inbound message of no particular type, as the commit tests use. -/
def msgInbound : Message := { type := "inbound" }

/-- Store of the commit-ordering scenario: one pending `empty` message about
to be acknowledged. -/
def commitStore : StoreState :=
  { acceptedTypes := ["empty"], pending := [msgEmpty] }

/-- Response of the commit-ordering scenario: the message is acknowledged
and three inbound messages arrive. -/
def commitResp : Response :=
  { nextExpected := 1, messages := [msgInbound, msgInbound, msgInbound] }

/-- Configuration of the urgent-send scenario: urgent interval 60 s. -/
def urgentCfg : ExchConfig :=
  { urgentExchangeInterval := 60, exchangeInterval := 900,
    preExchangeLeadTime := 10 }

/-- Urgent-send scenario, start state. -/
def urgentSim0 : SimState :=
  { cfg := urgentCfg, store := { acceptedTypes := ["empty"] } }

/-- Urgent-send scenario after the first urgent send at time 0. -/
def urgentSim1 : SimState := sim_send urgentSim0 msgEmpty true

/-- Urgent-send scenario after advancing 30 s. -/
def urgentSim2 : SimState := sim_advance urgentSim1 30

/-- Urgent-send scenario after the second urgent send at time 30. -/
def urgentSim3 : SimState := sim_send urgentSim2 msgEmpty true

/-- Urgent-send scenario after advancing the remaining 30 s. -/
def urgentSim4 : SimState := sim_advance urgentSim3 30

/-- Configuration of the impending-exchange scenario: regular interval
60 s, lead time 10 s. -/
def leadCfg : ExchConfig := { exchangeInterval := 60, preExchangeLeadTime := 10 }

/-- Impending-exchange scenario after a non-urgent schedule at time 0. -/
def leadSim0 : SimState := sim_schedule { cfg := leadCfg } false

/-- Impending-exchange scenario after advancing 49 s. -/
def leadSim1 : SimState := sim_advance leadSim0 49

/-- Impending-exchange scenario after advancing 1 s more. -/
def leadSim2 : SimState := sim_advance leadSim1 1

/-- Impending-exchange scenario after advancing 10 s more. -/
def leadSim3 : SimState := sim_advance leadSim2 10

/-- Configuration of the urgent-reschedule scenario: regular interval one
hour, urgent interval 20 s, lead time 10 s. -/
def reschedCfg : ExchConfig :=
  { exchangeInterval := 3600, urgentExchangeInterval := 20,
    preExchangeLeadTime := 10 }

/-- Urgent-reschedule scenario after a non-urgent schedule at time 0. -/
def reschedSim0 : SimState := sim_schedule { cfg := reschedCfg } false

/-- Urgent-reschedule scenario after the urgent reschedule. -/
def reschedSim1 : SimState := sim_schedule reschedSim0 true

/-- Urgent-reschedule scenario after advancing 10 s. -/
def reschedSim2 : SimState := sim_advance reschedSim1 10

/-- Urgent-reschedule scenario after advancing 10 s more. -/
def reschedSim3 : SimState := sim_advance reschedSim2 10

/-- Urgent-reschedule scenario advanced to time 3590, when the cancelled
impending event would have fired. -/
def reschedSim4 : SimState := sim_advance reschedSim3 3570

/-- Urgent-reschedule scenario advanced past the rescheduled impending
event at time 3610. -/
def reschedSim5 : SimState := sim_advance reschedSim4 20

/-- Characterization of strict lexicographic comparison on nonempty
sequences. -/
theorem lexLt_cons (x y : Nat) (xs ys : List Nat) :
    lexLt (x :: xs) (y :: ys) = true ↔ x < y ∨ (x = y ∧ lexLt xs ys = true) := by
  simp only [lexLt]
  by_cases h1 : x < y
  · simp [h1]
  · by_cases h2 : y < x
    · simp [h1, h2]
      omega
    · have hxy : x = y := by omega
      simp [h1, h2, hxy]

/-- Lexicographic comparison is irreflexive. -/
theorem lexLt_irrefl : ∀ p : List Nat, lexLt p p = false
  | [] => rfl
  | x :: xs => by simp [lexLt, lexLt_irrefl xs]

/-- Lexicographic comparison is transitive. -/
theorem lexLt_trans :
    ∀ p q r : List Nat, lexLt p q = true → lexLt q r = true → lexLt p r = true := by
  intro p
  induction p with
  | nil =>
    intro q r h1 h2
    cases q with
    | nil => simp [lexLt] at h1
    | cons b bs =>
      cases r with
      | nil => simp [lexLt] at h2
      | cons c cs => simp [lexLt]
  | cons a as ih =>
    intro q r h1 h2
    cases q with
    | nil => simp [lexLt] at h1
    | cons b bs =>
      cases r with
      | nil => simp [lexLt] at h2
      | cons c cs =>
        rw [lexLt_cons] at h1 h2 ⊢
        rcases h1 with h1 | ⟨he1, h1⟩
        · rcases h2 with h2 | ⟨he2, h2⟩
          · left; omega
          · left; omega
        · rcases h2 with h2 | ⟨he2, h2⟩
          · left; omega
          · exact Or.inr ⟨by omega, ih bs cs h1 h2⟩

/-- Two mutually non-smaller sequences are equal. -/
theorem lexLt_connex :
    ∀ p q : List Nat, lexLt p q = false → lexLt q p = false → p = q := by
  intro p
  induction p with
  | nil =>
    intro q h1 _
    cases q with
    | nil => rfl
    | cons b bs => simp [lexLt] at h1
  | cons a as ih =>
    intro q h1 h2
    cases q with
    | nil => simp [lexLt] at h2
    | cons b bs =>
      have n1 : ¬ (a < b ∨ (a = b ∧ lexLt as bs = true)) := by
        rw [← lexLt_cons a b as bs]
        simp [h1]
      have n2 : ¬ (b < a ∨ (b = a ∧ lexLt bs as = true)) := by
        rw [← lexLt_cons b a bs as]
        simp [h2]
      push_neg at n1 n2
      have hab : a = b := by
        rcases n1 with ⟨n1a, _⟩
        rcases n2 with ⟨n2a, _⟩
        omega
      subst hab
      have e1 : lexLt as bs = false := Bool.eq_false_iff.mpr (n1.2 rfl)
      have e2 : lexLt bs as = false := Bool.eq_false_iff.mpr (n2.2 rfl)
      rw [ih bs e1 e2]

/-- Lexicographic comparison is asymmetric. -/
theorem lexLt_asymm (p q : List Nat) (h1 : lexLt p q = true)
    (h2 : lexLt q p = true) : False := by
  have h := lexLt_trans p q p h1 h2
  rw [lexLt_irrefl] at h
  exact Bool.false_ne_true h

/-- The string order of the model is reflexive. -/
theorem strLeP_refl (a : String) : strLeP a a := by
  simp [strLeP, strLe, strLt, lexLt_irrefl]

/-- The string order of the model is transitive. -/
theorem strLeP_trans (a b c : String) (h1 : strLeP a b) (h2 : strLeP b c) :
    strLeP a c := by
  simp only [strLeP, strLe, strLt, Bool.not_eq_true'] at h1 h2 ⊢
  by_cases hb : lexLt (charsOf b) (charsOf c) = true
  · cases hx : lexLt (charsOf c) (charsOf a) with
    | false => rfl
    | true =>
      have h := lexLt_trans _ _ _ hb hx
      rw [h1] at h
      exact absurd h Bool.false_ne_true
  · have hb' : lexLt (charsOf b) (charsOf c) = false := Bool.eq_false_iff.mpr hb
    have hcb : charsOf c = charsOf b := lexLt_connex _ _ h2 hb'
    rw [hcb]
    exact h1

/-- The string order of the model is total. -/
theorem strLeP_total (a b : String) : strLeP a b ∨ strLeP b a := by
  simp only [strLeP, strLe, strLt, Bool.not_eq_true']
  by_cases h : lexLt (charsOf b) (charsOf a) = true
  · right
    cases hx : lexLt (charsOf a) (charsOf b) with
    | false => rfl
    | true => exact (lexLt_asymm _ _ hx h).elim
  · left
    exact Bool.eq_false_iff.mpr h

/-- Python `min` on strings never exceeds its first argument. -/
theorem minStr_le_left (a b : String) : strLeP (minStr a b) a := by
  by_cases h : strLt b a = true
  · simp only [minStr, h, if_true]
    simp only [strLeP, strLe, Bool.not_eq_true']
    cases hx : strLt a b with
    | false => rfl
    | true =>
      exact ((lexLt_asymm _ _ (by simpa [strLt] using hx)
        (by simpa [strLt] using h))).elim
  · simp only [minStr, h, if_false]
    exact strLeP_refl a

/-- Python `min` on strings never exceeds its second argument. -/
theorem minStr_le_right (a b : String) : strLeP (minStr a b) b := by
  by_cases h : strLt b a = true
  · simp only [minStr, h, if_true]
    exact strLeP_refl b
  · simp only [minStr, h, if_false]
    simp only [strLeP, strLe, Bool.not_eq_true']
    exact Bool.eq_false_iff.mpr h

/-- A `min`-fold never exceeds its starting value. -/
theorem foldl_minStr_le_init :
    ∀ (l : List String) (a : String), strLeP (l.foldl minStr a) a
  | [], a => strLeP_refl a
  | b :: l, a =>
    strLeP_trans _ _ _ (foldl_minStr_le_init l (minStr a b)) (minStr_le_left a b)

/-- A `min`-fold never exceeds a member of the list. -/
theorem foldl_minStr_le_mem :
    ∀ (l : List String) (a x : String), x ∈ l → strLeP (l.foldl minStr a) x := by
  intro l
  induction l with
  | nil => intro a x hx; cases hx
  | cons b l ih =>
    intro a x hx
    rcases List.mem_cons.mp hx with rfl | hx
    · exact strLeP_trans _ _ _ (foldl_minStr_le_init l (minStr a x))
        (minStr_le_right a x)
    · exact ih (minStr a b) x hx

/-- The selected api version is the lowest among the batch. -/
theorem lowestApi_le (batch : List Message) (dflt : String) (m : Message)
    (h : m ∈ batch) : strLeP (lowestApi batch dflt) (apiOf m) := by
  cases batch with
  | nil => cases h
  | cons b bs =>
    simp only [lowestApi, List.map_cons]
    rcases List.mem_cons.mp h with rfl | h1
    · exact foldl_minStr_le_init _ _
    · exact foldl_minStr_le_mem _ _ _ (List.mem_map_of_mem apiOf h1)

/-- Inserting into a sorted list keeps it sorted for the model's string
order. -/
theorem orderedInsert_sorted (a : String) :
    ∀ l : List String, List.Sorted strLeP l →
      List.Sorted strLeP (l.orderedInsert strLeP a) := by
  intro l
  induction l with
  | nil => intro _; simp [List.orderedInsert]
  | cons b bs ih =>
    intro hs
    rw [List.sorted_cons] at hs
    obtain ⟨hb, hbs⟩ := hs
    by_cases hab : strLeP a b
    · rw [List.orderedInsert, if_pos hab, List.sorted_cons]
      refine ⟨?_, ?_⟩
      · intro x hx
        rcases List.mem_cons.mp hx with rfl | hx1
        · exact hab
        · exact strLeP_trans _ _ _ hab (hb x hx1)
      · rw [List.sorted_cons]
        exact ⟨hb, hbs⟩
    · rw [List.orderedInsert, if_neg hab, List.sorted_cons]
      refine ⟨?_, ih hbs⟩
      intro x hx
      rcases (List.mem_orderedInsert strLeP).mp hx with rfl | hx1
      · rcases strLeP_total x b with h | h
        · exact absurd h hab
        · exact h
      · exact hb x hx1

/-- Sorting type names yields an alphabetically sorted list. -/
theorem sortStrs_sorted (l : List String) : List.Sorted strLeP (sortStrs l) := by
  unfold sortStrs
  induction l with
  | nil => simp [List.insertionSort]
  | cons a l ih =>
    rw [List.insertionSort]
    exact orderedInsert_sorted a _ ih

/-- Sorting preserves membership. -/
theorem sortStrs_mem {l : List String} {x : String} : x ∈ sortStrs l ↔ x ∈ l :=
  List.mem_insertionSort strLeP

/-- Sorting preserves multiplicities. -/
theorem sortStrs_count (l : List String) (a : String) :
    (sortStrs l).count a = l.count a :=
  (List.perm_insertionSort strLeP l).count_eq a

/-- Sorting preserves freedom from duplicates. -/
theorem sortStrs_nodup {l : List String} (h : l.Nodup) : (sortStrs l).Nodup :=
  ((List.perm_insertionSort strLeP l).nodup_iff).mpr h

/-- Adding an accepted message appends it to the pending queue. -/
theorem store_add_accepted (st : StoreState) (m : Message)
    (h : m.type ∈ st.acceptedTypes) :
    store_add st m = { st with pending := st.pending ++ [m] } := by
  simp [store_add, h]

/-- Adding a run of accepted messages appends them to the pending queue in
order. -/
theorem foldl_store_add_accepted :
    ∀ (subs : List Message) (st : StoreState),
      (∀ m ∈ subs, m.type ∈ st.acceptedTypes) →
      subs.foldl store_add st = { st with pending := st.pending ++ subs } := by
  intro subs
  induction subs with
  | nil => intro st _; simp
  | cons m ms ih =>
    intro st h
    have hm : m.type ∈ st.acceptedTypes := h m (List.mem_cons_self m ms)
    rw [List.foldl_cons, store_add_accepted st m hm,
      ih { st with pending := st.pending ++ [m] }
        (fun x hx => h x (List.mem_cons_of_mem m hx))]
    simp

/-- Dispatch hands every inbound message to its handler, in order. -/
theorem dispatch_inbound_snds :
    ∀ (msgs : List Message) (st : StoreState),
      (dispatch_inbound st msgs).1.map Prod.snd = msgs := by
  intro msgs
  induction msgs with
  | nil => intro st; rfl
  | cons m ms ih => intro st; simp [dispatch_inbound, ih]

/-- The handler of the k-th inbound message (counting from zero) sees the
server sequence incremented k times. -/
theorem dispatch_inbound_seqs :
    ∀ (msgs : List Message) (st : StoreState),
      (dispatch_inbound st msgs).1.map (fun p => p.1.serverSequence) =
        (List.range msgs.length).map (fun k => st.serverSequence + k) := by
  intro msgs
  induction msgs with
  | nil => intro st; rfl
  | cons m ms ih =>
    intro st
    have hstep : (dispatch_inbound st (m :: ms)).1 =
        (st, m) ::
          (dispatch_inbound { st with serverSequence := st.serverSequence + 1 }
            ms).1 := rfl
    rw [hstep, List.map_cons, ih, List.length_cons, List.range_succ_eq_map,
      List.map_cons, List.map_map]
    refine congrArg₂ List.cons ?_ ?_
    · simp
    · refine List.map_congr_left fun k _ => ?_
      show st.serverSequence + 1 + k = st.serverSequence + Nat.succ k
      omega

/-- Dispatch leaves the outbound bookkeeping of the store untouched: every
handler sees the sequence, pending offset and pending queue it started
with. -/
theorem dispatch_inbound_frame :
    ∀ (msgs : List Message) (st : StoreState),
      ∀ p ∈ (dispatch_inbound st msgs).1,
        p.1.sequence = st.sequence ∧ p.1.pendingOffset = st.pendingOffset ∧
          p.1.pending = st.pending := by
  intro msgs
  induction msgs with
  | nil =>
    intro st p hp
    simp [dispatch_inbound] at hp
  | cons m ms ih =>
    intro st p hp
    have hstep : (dispatch_inbound st (m :: ms)).1 =
        (st, m) ::
          (dispatch_inbound { st with serverSequence := st.serverSequence + 1 }
            ms).1 := rfl
    rw [hstep] at hp
    rcases List.mem_cons.mp hp with rfl | hp1
    · exact ⟨rfl, rfl, rfl⟩
    · exact ih { st with serverSequence := st.serverSequence + 1 } p hp1

/-- After dispatch, the committed store has counted every inbound message. -/
theorem dispatch_inbound_final :
    ∀ (msgs : List Message) (st : StoreState),
      (dispatch_inbound st msgs).2 =
        { st with serverSequence := st.serverSequence + msgs.length } := by
  intro msgs
  induction msgs with
  | nil => intro st; simp [dispatch_inbound]
  | cons m ms ih =>
    intro st
    have hstep : (dispatch_inbound st (m :: ms)).2 =
        (dispatch_inbound { st with serverSequence := st.serverSequence + 1 }
          ms).2 := rfl
    rw [hstep, ih, List.length_cons]
    congr 1
    show st.serverSequence + 1 + ms.length = st.serverSequence + (ms.length + 1)
    omega

/-- C1: for every exchange whose response carries a next-expected-sequence
strictly below both the sequence the client sent and the store's sequence
(the ancient case), the handler enqueues exactly one outbound
`{"type": "resynchronize"}` message, fires `"resynchronize-clients"` exactly
once after the enqueue — so every snapshot message a subscriber adds lands
in the pending queue after the resynchronize message — and sets urgent
mode. -/
theorem ancient_desync_resynchronizes (st : StoreState)
    (sentSeq nextExpected : Nat) (subs : List Message)
    (h1 : nextExpected < sentSeq) (h2 : nextExpected < st.sequence)
    (hres : "resynchronize" ∈ st.acceptedTypes)
    (hsubs : ∀ m ∈ subs, m.type ∈ st.acceptedTypes) :
    (apply_next_expected st sentSeq nextExpected subs).resyncFires = 1 ∧
    (apply_next_expected st sentSeq nextExpected subs).urgent = true ∧
    (apply_next_expected st sentSeq nextExpected subs).store.pending =
      st.pending ++ ({ type := "resynchronize" } : Message) :: subs ∧
    (apply_next_expected st sentSeq nextExpected subs).store.held = st.held := by
  have hstep : apply_next_expected st sentSeq nextExpected subs =
      { store := subs.foldl store_add
          (store_add st { type := "resynchronize" }),
        resyncFires := 1, urgent := true } := by
    simp only [apply_next_expected, if_pos h1, if_pos h2]
  rw [hstep, store_add_accepted st _ hres,
    foldl_store_add_accepted subs { st with
      pending := st.pending ++ [{ type := "resynchronize" }] } hsubs]
  refine ⟨rfl, rfl, ?_, rfl⟩
  simp

/-- Witness for C1: the concrete ancient-desync scenario of the test suite,
with the subscriber enqueuing one `data` snapshot message. -/
theorem ancient_desync_resynchronizes_witness :
    (apply_next_expected ancientStore 3 0 [msgData 999]).resyncFires = 1 ∧
    (apply_next_expected ancientStore 3 0 [msgData 999]).urgent = true ∧
    (apply_next_expected ancientStore 3 0 [msgData 999]).store.pending =
      ancientStore.pending ++
        ({ type := "resynchronize" } : Message) :: [msgData 999] ∧
    (apply_next_expected ancientStore 3 0 [msgData 999]).store.held =
      ancientStore.held :=
  ancient_desync_resynchronizes ancientStore 3 0 [msgData 999]
    (by decide) (by decide) (by decide) (by decide)

/-- Counting a tagged pair in a tagged list counts the underlying name. -/
theorem count_pair_map (l : List String) (t : String) (b : Bool) :
    (l.map (fun s => (s, b))).count (t, b) = l.count t := by
  induction l with
  | nil => rfl
  | cons a l ih =>
    simp only [List.map_cons, List.count_cons, ih]
    by_cases h : a = t
    · simp [h]
    · simp [h]

/-- C2 counterexample: replacing accepted types `{a, b}` by `{b, c}` fires
the events in the order removal-of-`a` first, then addition-of-`c`; the
claimed order — additions first, then removals — does not hold. -/
theorem acceptance_events_order_counterexample :
    acceptance_events ["a", "b"] ["b", "c"] = [("a", false), ("c", true)] ∧
    acceptance_events ["a", "b"] ["b", "c"] ≠ [("c", true), ("a", false)] := by
  decide

/-- C2 (amended): `set_accepted_types(T2)` over previous accepted set `T1`
fires exactly one `"message-type-acceptance-changed"` event `(t, true)` per
`t ∈ T2 \ T1`, exactly one `(t, false)` per `t ∈ T1 \ T2`, and none for the
intersection; the events are ordered removals first (alphabetical by type),
then additions (alphabetical). -/
theorem acceptance_changed_events_spec (old new : List String)
    (hold : old.Nodup) (hnew : new.Nodup) :
    (acceptance_events old new =
      (sortStrs (old.filter (fun t => t ∉ new))).map (fun t => (t, false)) ++
        (sortStrs (new.filter (fun t => t ∉ old))).map (fun t => (t, true))) ∧
    List.Sorted strLeP (sortStrs (old.filter (fun t => t ∉ new))) ∧
    List.Sorted strLeP (sortStrs (new.filter (fun t => t ∉ old))) ∧
    (∀ t, t ∈ new → t ∉ old →
      (acceptance_events old new).count (t, true) = 1) ∧
    (∀ t, t ∈ old → t ∉ new →
      (acceptance_events old new).count (t, false) = 1) ∧
    (∀ t, t ∈ old → t ∈ new → ∀ b, (t, b) ∉ acceptance_events old new) ∧
    (∀ t, ((t, true) ∈ acceptance_events old new ↔ t ∈ new ∧ t ∉ old) ∧
      ((t, false) ∈ acceptance_events old new ↔ t ∈ old ∧ t ∉ new)) := by
  refine ⟨rfl, sortStrs_sorted _, sortStrs_sorted _, ?_, ?_, ?_, ?_⟩
  · intro t ht hto
    rw [acceptance_events, List.count_append]
    have hz : ((sortStrs (old.filter (fun t => t ∉ new))).map
        (fun t => (t, false))).count (t, true) = 0 := by
      rw [List.count_eq_zero]
      intro hmem
      rcases List.mem_map.mp hmem with ⟨s, _, hs⟩
      simp at hs
    rw [hz, count_pair_map, sortStrs_count,
      List.count_filter (by simpa using hto)]
    have h1 : new.count t ≤ 1 := List.nodup_iff_count_le_one.mp hnew t
    have h2 : 0 < new.count t := List.count_pos_iff.mpr ht
    omega
  · intro t ht htn
    rw [acceptance_events, List.count_append]
    have hz : ((sortStrs (new.filter (fun t => t ∉ old))).map
        (fun t => (t, true))).count (t, false) = 0 := by
      rw [List.count_eq_zero]
      intro hmem
      rcases List.mem_map.mp hmem with ⟨s, _, hs⟩
      simp at hs
    rw [hz, count_pair_map, sortStrs_count,
      List.count_filter (by simpa using htn)]
    have h1 : old.count t ≤ 1 := List.nodup_iff_count_le_one.mp hold t
    have h2 : 0 < old.count t := List.count_pos_iff.mpr ht
    omega
  · intro t ht1 ht2 b hmem
    rcases List.mem_append.mp hmem with h | h
    · rcases List.mem_map.mp h with ⟨s, hs, he⟩
      have hst : s = t := by simpa using congrArg Prod.fst he
      subst hst
      have := sortStrs_mem.mp hs
      rcases List.mem_filter.mp this with ⟨_, hp⟩
      simp at hp
      exact hp ht2
    · rcases List.mem_map.mp h with ⟨s, hs, he⟩
      have hst : s = t := by simpa using congrArg Prod.fst he
      subst hst
      have := sortStrs_mem.mp hs
      rcases List.mem_filter.mp this with ⟨_, hp⟩
      simp at hp
      exact hp ht1
  · intro t
    constructor
    · constructor
      · intro hmem
        rcases List.mem_append.mp hmem with h | h
        · rcases List.mem_map.mp h with ⟨s, _, he⟩
          simp at he
        · rcases List.mem_map.mp h with ⟨s, hs, he⟩
          have hst : s = t := by simpa using congrArg Prod.fst he
          subst hst
          have := sortStrs_mem.mp hs
          rcases List.mem_filter.mp this with ⟨hmem2, hp⟩
          simp at hp
          exact ⟨hmem2, hp⟩
      · intro ⟨ht, hto⟩
        refine List.mem_append.mpr (Or.inr ?_)
        refine List.mem_map.mpr ⟨t, ?_, rfl⟩
        exact sortStrs_mem.mpr (List.mem_filter.mpr ⟨ht, by simpa using hto⟩)
    · constructor
      · intro hmem
        rcases List.mem_append.mp hmem with h | h
        · rcases List.mem_map.mp h with ⟨s, hs, he⟩
          have hst : s = t := by simpa using congrArg Prod.fst he
          subst hst
          have := sortStrs_mem.mp hs
          rcases List.mem_filter.mp this with ⟨hmem2, hp⟩
          simp at hp
          exact ⟨hmem2, hp⟩
        · rcases List.mem_map.mp h with ⟨s, _, he⟩
          simp at he
      · intro ⟨ht, htn⟩
        refine List.mem_append.mpr (Or.inl ?_)
        refine List.mem_map.mpr ⟨t, ?_, rfl⟩
        exact sortStrs_mem.mpr (List.mem_filter.mpr ⟨ht, by simpa using htn⟩)

/-- Witness for the amended C2: the concrete transition of the test suite,
`{a, b}` to `{b, c}`, fires addition-of-`c` exactly once. -/
theorem acceptance_changed_events_spec_witness :
    (acceptance_events ["a", "b"] ["b", "c"]).count ("c", true) = 1 :=
  (acceptance_changed_events_spec ["a", "b"] ["b", "c"]
    (by decide) (by decide)).2.2.2.1 "c" (by decide) (by decide)

/-- C3: when the client sent at least one message and the server's response
carries a next-expected-sequence equal to the sequence the client sent, the
cycle does not set urgent mode and the next exchange is scheduled at the
regular interval. -/
theorem no_urgency_on_no_ack_progress (cfg : ExchConfig) (st : StoreState)
    (urgentIn : Bool) (resp : Response)
    (hne : resp.nextExpected = (make_payload cfg st).sequence)
    (hmsgs : resp.messages = [])
    (hsent : (make_payload cfg st).messages ≠ []) :
    (exchange_cycle cfg st urgentIn (fun _ => some resp)).urgent = false ∧
    (exchange_cycle cfg st urgentIn (fun _ => some resp)).interval =
      cfg.exchangeInterval := by
  have hseq : (make_payload cfg st).sequence = st.sequence := rfl
  rw [hseq] at hne
  constructor <;>
    simp [exchange_cycle, handle_response, apply_next_expected, hne, hmsgs,
      hseq]

/-- Witness for C3: the concrete scenario of the test suite — server
sequence 3300, one pending `data` message, and a response repeating the
client's own sequence. -/
theorem no_urgency_on_no_ack_progress_witness :
    (exchange_cycle {} noProgressStore true
      (fun _ => some { nextExpected := 0 })).urgent = false ∧
    (exchange_cycle {} noProgressStore true
      (fun _ => some { nextExpected := 0 })).interval =
      ({} : ExchConfig).exchangeInterval :=
  no_urgency_on_no_ack_progress {} noProgressStore true { nextExpected := 0 }
    (by decide) (by decide) (by decide)

/-- C4: every payload contains exactly the messages of the batch whose api
bucket (absent api meaning `"2.0"`) equals the payload's `server-api`, that
version is the lowest bucket of the batch, and the three exchanges of the
concrete mixed-api scenario drain the buckets in ascending api order with
`server-api` 1.0, 1.1 and 2.0. -/
theorem per_api_payload_partition :
    (∀ (cfg : ExchConfig) (st : StoreState) (m : Message),
      m ∈ (make_payload cfg st).messages ↔
        m ∈ (st.pending.drop st.pendingOffset).take cfg.maxMessages ∧
          apiOf m = (make_payload cfg st).serverApi) ∧
    (∀ (cfg : ExchConfig) (st : StoreState) (m : Message),
      m ∈ (st.pending.drop st.pendingOffset).take cfg.maxMessages →
        strLeP (make_payload cfg st).serverApi (apiOf m)) ∧
    (∀ m : Message, m.api = none → apiOf m = "2.0") ∧
    (perApiCycle1.payload.serverApi = "1.0" ∧
      perApiCycle1.payload.messages = [msgA, msgB]) ∧
    (perApiCycle2.payload.serverApi = "1.1" ∧
      perApiCycle2.payload.messages = [msgC, msgD]) ∧
    (perApiCycle3.payload.serverApi = "2.0" ∧
      perApiCycle3.payload.messages = [msgE, msgF]) := by
  refine ⟨?_, ?_, ?_, ?_, ?_, ?_⟩
  · intro cfg st m
    simp [make_payload, List.mem_filter]
  · intro cfg st m hm
    exact lowestApi_le _ clientAPIVersion m hm
  · intro m h
    simp [apiOf, h]
  · exact ⟨by decide, by decide⟩
  · exact ⟨by decide, by decide⟩
  · exact ⟨by decide, by decide⟩

/-- Witness for C4: the lowest-bucket bound applied to the first message of
the concrete mixed-api store. -/
theorem per_api_payload_partition_witness :
    strLeP (make_payload {} perApiStore).serverApi (apiOf msgC) :=
  per_api_payload_partition.2.1 {} perApiStore msgC (by decide)

/-- C5: the accepted-types field of every payload is the raw MD5 digest of
the semicolon-join of the sorted accepted types; the empty set yields
`MD5("")`, the set `{ack, bar}` yields `MD5("ack;bar")` (both evaluated
against the reference digests), and the digest is a pure function of the
sorted tuple of accepted types. -/
theorem accepted_types_digest_spec :
    (∀ (cfg : ExchConfig) (st : StoreState),
      (make_payload cfg st).acceptedTypesDigest =
        md5String (joinSemicolon (sortStrs st.acceptedTypes))) ∧
    get_accepted_types_digest [] = md5String "" ∧
    md5String "" = [0xd4, 0x1d, 0x8c, 0xd9, 0x8f, 0x00, 0xb2, 0x04,
      0xe9, 0x80, 0x09, 0x98, 0xec, 0xf8, 0x42, 0x7e] ∧
    get_accepted_types_digest ["ack", "bar"] = md5String "ack;bar" ∧
    md5String "ack;bar" = [0x48, 0xe3, 0x95, 0x81, 0xac, 0x74, 0x08, 0x83,
      0x63, 0x86, 0x5a, 0x47, 0x0e, 0x41, 0xce, 0x02] ∧
    (∀ t1 t2 : List String, sortStrs t1 = sortStrs t2 →
      get_accepted_types_digest t1 = get_accepted_types_digest t2) := by
  refine ⟨fun cfg st => rfl, by decide, by decide, by decide, by decide, ?_⟩
  intro t1 t2 h
  unfold get_accepted_types_digest
  rw [h]

/-- Witness for C5: the digest does not depend on the enumeration order of
the accepted set. -/
theorem accepted_types_digest_spec_witness :
    get_accepted_types_digest ["bar", "ack"] =
      get_accepted_types_digest ["ack", "bar"] :=
  accepted_types_digest_spec.2.2.2.2.2 ["bar", "ack"] ["ack", "bar"]
    (by decide)

/-- C6 counterexample: with the store's server sequence at 0 and one
acknowledged outbound message, the handler of the first (and only) inbound
message sees a committed server sequence of 0, not the 1 the claim's
`incremented k times before the k-th handler` requires. -/
theorem commit_before_dispatch_counterexample :
    ((handle_response commitStore 0
        { nextExpected := 1, messages := [msgInbound] }).2.1.map
      (fun p => p.1.serverSequence)) = [0] ∧
    ¬ ((handle_response commitStore 0
        { nextExpected := 1, messages := [msgInbound] }).2.1.map
      (fun p => p.1.serverSequence)) =
        [commitStore.serverSequence + 1] := by
  decide

/-- C6 (amended): dispatch of each inbound message happens only after the
exchange's acknowledgement bookkeeping has been committed — the handler of
the k-th inbound message (k = 1, 2, ...) observes the updated sequence,
pending offset and pending queue, and a server sequence incremented k − 1
times, with each increment committed immediately after its handler runs, so
the final committed store has counted every inbound message. -/
theorem commit_before_dispatch (st : StoreState) (sentSeq : Nat)
    (resp : Response) (hle : sentSeq ≤ resp.nextExpected) :
    ((handle_response st sentSeq resp).2.1.map Prod.snd = resp.messages) ∧
    ((handle_response st sentSeq resp).2.1.map
        (fun p => p.1.serverSequence) =
      (List.range resp.messages.length).map
        (fun k => st.serverSequence + k)) ∧
    (∀ p ∈ (handle_response st sentSeq resp).2.1,
      p.1.sequence = st.sequence + (resp.nextExpected - sentSeq) ∧
      p.1.pendingOffset = st.pendingOffset + (resp.nextExpected - sentSeq) ∧
      p.1.pending = st.pending) ∧
    ((handle_response st sentSeq resp).2.2.serverSequence =
      st.serverSequence + resp.messages.length) := by
  have hlt : ¬ (resp.nextExpected < sentSeq) := by omega
  have hack : handle_response st sentSeq resp =
      (⟨{ st with
          pendingOffset := st.pendingOffset + (resp.nextExpected - sentSeq),
          sequence := st.sequence + (resp.nextExpected - sentSeq) }, 0, false⟩,
        dispatch_inbound { st with
          pendingOffset := st.pendingOffset + (resp.nextExpected - sentSeq),
          sequence := st.sequence + (resp.nextExpected - sentSeq) }
          resp.messages) := by
    simp only [handle_response, apply_next_expected, if_neg hlt]
  rw [hack]
  refine ⟨dispatch_inbound_snds resp.messages _, ?_, ?_, ?_⟩
  · exact dispatch_inbound_seqs resp.messages _
  · intro p hp
    exact dispatch_inbound_frame resp.messages _ p hp
  · rw [dispatch_inbound_final resp.messages _]

/-- Witness for the amended C6: the concrete three-inbound-message scenario
of the test suite — the handlers observe committed server sequences 0, 1, 2
while already seeing sequence 1 and pending offset 1. -/
theorem commit_before_dispatch_witness :
    ((handle_response commitStore 0 commitResp).2.1.map Prod.snd =
      commitResp.messages) ∧
    ((handle_response commitStore 0 commitResp).2.1.map
        (fun p => p.1.serverSequence) =
      (List.range commitResp.messages.length).map
        (fun k => commitStore.serverSequence + k)) ∧
    (∀ p ∈ (handle_response commitStore 0 commitResp).2.1,
      p.1.sequence = commitStore.sequence + (commitResp.nextExpected - 0) ∧
      p.1.pendingOffset =
        commitStore.pendingOffset + (commitResp.nextExpected - 0) ∧
      p.1.pending = commitStore.pending) ∧
    ((handle_response commitStore 0 commitResp).2.2.serverSequence =
      commitStore.serverSequence + commitResp.messages.length) :=
  commit_before_dispatch commitStore 0 commitResp (by decide)

/-- C7: requesting an urgent exchange while an urgent exchange is already
scheduled leaves the timers untouched — the exchange never moves later —
and in the concrete scenario two urgent sends 30 s apart within a 60 s
urgent interval deliver exactly one payload containing both messages. -/
theorem urgent_schedule_never_moves_forward :
    (∀ (cfg : ExchConfig) (now : Nat) (tm : SchedTimers),
      tm.exchangeAt.isSome = true → tm.urgentScheduled = true →
      schedule_exchange cfg now tm true = tm) ∧
    urgentSim1.timers =
      { exchangeAt := some 60, urgentScheduled := true,
        impendingAt := some 50 } ∧
    urgentSim3.timers = urgentSim1.timers ∧
    urgentSim4.payloads.map Payload.messages = [[msgEmpty, msgEmpty]] := by
  refine ⟨?_, by decide, by decide, by decide⟩
  intro cfg now tm h1 h2
  cases htm : tm.exchangeAt with
  | none => rw [htm] at h1; simp at h1
  | some te => simp [schedule_exchange, htm, h2]

/-- Witness for C7: rescheduling urgently over the urgent timer of the
concrete scenario changes nothing. -/
theorem urgent_schedule_never_moves_forward_witness :
    schedule_exchange urgentCfg 30
      { exchangeAt := some 60, urgentScheduled := true,
        impendingAt := some 50 } true =
      { exchangeAt := some 60, urgentScheduled := true,
        impendingAt := some 50 } :=
  urgent_schedule_never_moves_forward.1 urgentCfg 30
    { exchangeAt := some 60, urgentScheduled := true, impendingAt := some 50 }
    (by decide) (by decide)

/-- C8: a timer set to fire in `t` seconds with `t` above the lead time
schedules the impending-exchange event exactly `t` minus the lead time from
now; an urgent reschedule over a non-urgent timer replaces both timers with
ones relative to the urgent interval, cancelling the old impending event.
In the concrete scenarios the impending event fires at 50 s — not at 49 s —
with the exchange at 60 s, and after an urgent reschedule the old impending
time 3590 never fires while the new ones at 10 s and 3610 s do. -/
theorem impending_exchange_lead_time :
    (∀ (cfg : ExchConfig) (now t : Nat) (urg : Bool),
      cfg.preExchangeLeadTime < t →
      (mk_timers cfg now t urg).exchangeAt = some (now + t) ∧
      (mk_timers cfg now t urg).impendingAt =
        some (now + t - cfg.preExchangeLeadTime)) ∧
    (∀ (cfg : ExchConfig) (now : Nat) (tm : SchedTimers),
      tm.exchangeAt.isSome = true → tm.urgentScheduled = false →
      schedule_exchange cfg now tm true =
        mk_timers cfg now cfg.urgentExchangeInterval true) ∧
    (leadSim0.timers.exchangeAt = some 60 ∧
      leadSim0.timers.impendingAt = some 50) ∧
    (leadSim1.impendingFired = [] ∧ leadSim1.now = 49) ∧
    (leadSim2.impendingFired = [50] ∧ leadSim2.payloads = []) ∧
    leadSim3.payloads.length = 1 ∧
    (reschedSim0.timers.impendingAt = some 3590 ∧
      reschedSim1.timers =
        { exchangeAt := some 20, urgentScheduled := true,
          impendingAt := some 10 }) ∧
    (reschedSim2.impendingFired = [10] ∧ reschedSim3.payloads.length = 1) ∧
    (reschedSim4.now = 3590 ∧ reschedSim4.impendingFired = [10]) ∧
    reschedSim5.impendingFired = [10, 3610] := by
  refine ⟨?_, ?_, by decide, by decide, by decide, by decide, by decide,
    by decide, by decide, by decide⟩
  · intro cfg now t urg h
    exact ⟨rfl, by simp [mk_timers, h]⟩
  · intro cfg now tm h1 h2
    cases htm : tm.exchangeAt with
    | none => rw [htm] at h1; simp at h1
    | some te => simp [schedule_exchange, htm, h2]

/-- Witness for C8: a regular 60 s timer set at time 0 with a 10 s lead
yields an exchange timer at 60 and an impending timer at 50. -/
theorem impending_exchange_lead_time_witness :
    (mk_timers leadCfg 0 60 false).exchangeAt = some 60 ∧
    (mk_timers leadCfg 0 60 false).impendingAt = some 50 :=
  impending_exchange_lead_time.1 leadCfg 0 60 false (by decide)

/-- C9: handling a `set-intervals` message updates each interval exactly
when its field is present — an absent field leaves that interval exactly as
it was — as observed through `get_exchange_intervals`, and the other
configuration options are untouched. -/
theorem set_intervals_updates_present_fields (cfg : ExchConfig)
    (uf ef : Option Nat) :
    get_exchange_intervals (handle_set_intervals cfg uf ef) =
      (uf.getD cfg.urgentExchangeInterval, ef.getD cfg.exchangeInterval) ∧
    (uf = none →
      (handle_set_intervals cfg uf ef).urgentExchangeInterval =
        cfg.urgentExchangeInterval) ∧
    (ef = none →
      (handle_set_intervals cfg uf ef).exchangeInterval =
        cfg.exchangeInterval) ∧
    (∀ v, uf = some v →
      (handle_set_intervals cfg uf ef).urgentExchangeInterval = v) ∧
    (∀ v, ef = some v →
      (handle_set_intervals cfg uf ef).exchangeInterval = v) ∧
    (handle_set_intervals cfg uf ef).maxMessages = cfg.maxMessages ∧
    (handle_set_intervals cfg uf ef).preExchangeLeadTime =
      cfg.preExchangeLeadTime := by
  cases uf <;> cases ef <;>
    simp [handle_set_intervals, get_exchange_intervals]

/-- Witness for C9: the urgent-exchange-only message of the test suite sets
the urgent interval to 1234 and keeps the default regular interval 900. -/
theorem set_intervals_updates_present_fields_witness :
    get_exchange_intervals (handle_set_intervals {} (some 1234) none) =
      (1234, 900) :=
  (set_intervals_updates_present_fields {} (some 1234) none).1

/-- C10: the broker protocol dispatches exactly the eleven listed methods —
a name in the list resolves to the broker's attribute of that name, and any
name outside the list resolves to no handler at all. -/
theorem broker_method_surface :
    broker_method_calls =
      ["ping", "register_client", "send_message", "is_message_pending",
        "stop_clients", "reload_configuration", "register",
        "get_accepted_message_types", "get_server_uuid",
        "register_client_accepted_message_type", "exit"] ∧
    broker_method_calls.length = 11 ∧
    (∀ (α : Type) (broker : String → α) (name : String),
      name ∈ broker_method_calls →
        get_broker_method broker name = some (broker name)) ∧
    (∀ (α : Type) (broker : String → α) (name : String),
      name ∉ broker_method_calls → get_broker_method broker name = none) ∧
    (∀ (α : Type) (broker : String → α) (name : String),
      (get_broker_method broker name).isSome = true ↔
        name ∈ broker_method_calls) := by
  refine ⟨rfl, rfl, ?_, ?_, ?_⟩
  · intro α broker name h
    simp [get_broker_method, h]
  · intro α broker name h
    simp [get_broker_method, h]
  · intro α broker name
    by_cases h : name ∈ broker_method_calls <;>
      simp [get_broker_method, h]

/-- Witness for C10: `set_intervals` is not remotely callable while `ping`
is. -/
theorem broker_method_surface_witness :
    get_broker_method (fun _ => (0 : Nat)) "set_intervals" = none ∧
    get_broker_method (fun n => n) "ping" = some "ping" :=
  ⟨broker_method_surface.2.2.2.1 Nat (fun _ => 0) "set_intervals"
      (by decide),
    broker_method_surface.2.2.1 String (fun n => n) "ping" (by decide)⟩
